import Mathlib

/-!
# Verification of the stack_it vote ledger, acceptance coordinator and page actions

Shallow embedding of the voting / acceptance logic of the stack_it Q&A
application.  The vote ledger model follows `VoteButtons.handleVote`
(`src/components/VoteButtons.tsx`): the component reads the acting user's
current vote, then either deletes the row (same vote type), or upserts the
row keyed on the user/target pair (new or opposite vote type), updating the
cached aggregate by the corresponding difference.  The answer ordering
follows `QuestionDetail.fetchAnswers`, the submission paths follow
`AskQuestion.handleSubmit` and `QuestionDetail.handleSubmitAnswer`, and the
acceptance coordinator models the `accept_answer` remote procedure.
-/

namespace StackIt

/-- A live vote row for a single fixed target: the acting user's id and the
vote type (`+1` or `-1` in the observed flows; the model keeps `Int`). -/
structure VoteRow where
  user : Nat
  voteType : Int
deriving Repr, DecidableEq

/-- The state of one target: its live vote rows plus the cached aggregate
(`vote_count` column mirrored in the component's `voteCount` state). -/
structure LedgerState where
  rows : List VoteRow
  count : Int
deriving Repr, DecidableEq

/-- Sum of `vote_type` over all live vote rows — the independently derivable
aggregate. -/
def voteSum (rows : List VoteRow) : Int :=
  (rows.map (·.voteType)).sum

/-- The acting user's current vote on the target, read the way `handleVote`
reads `currentUserVote`: the vote row keyed by this user, if any. -/
def findVote (rows : List VoteRow) (u : Nat) : Option Int :=
  (rows.find? (fun r => r.user == u)).map (·.voteType)

/-- `castVote`, embedded from `VoteButtons.handleVote`:
* same vote type already present → delete the row, `count - voteType`;
* otherwise → upsert keyed on the user (replace the row if present, insert
  if absent), `count + (voteType - (currentUserVote || 0))`. -/
def castVote (s : LedgerState) (u : Nat) (v : Int) : LedgerState :=
  match findVote s.rows u with
  | some w =>
    if w = v then
      { rows := s.rows.filter (fun r => !(r.user == u)), count := s.count - v }
    else
      { rows := s.rows.map (fun r => if r.user == u then { r with voteType := v } else r),
        count := s.count + (v - w) }
  | none => { rows := ⟨u, v⟩ :: s.rows, count := s.count + v }

/-- Run a sequence of `castVote` calls (each a `(userId, voteType)` pair)
against an initially empty target. -/
def runCasts (ops : List (Nat × Int)) : LedgerState :=
  ops.foldl (fun s op => castVote s op.1 op.2) ⟨[], 0⟩

/-- The state invariant: the cached aggregate equals the ledger sum, and the
rows satisfy the per-user uniqueness constraint of the `votes` table. -/
def LedgerInv (s : LedgerState) : Prop :=
  s.count = voteSum s.rows ∧ (s.rows.map (·.user)).Nodup

lemma voteSum_cons (r : VoteRow) (rows : List VoteRow) :
    voteSum (r :: rows) = r.voteType + voteSum rows := by
  simp [voteSum]

lemma findVote_eq_none_iff (rows : List VoteRow) (u : Nat) :
    findVote rows u = none ↔ ∀ r ∈ rows, r.user ≠ u := by
  simp [findVote, List.find?_eq_none]

lemma filter_of_no_user (rows : List VoteRow) (u : Nat)
    (h : ∀ r ∈ rows, r.user ≠ u) :
    rows.filter (fun r => !(r.user == u)) = rows := by
  rw [List.filter_eq_self]
  intro r hr
  simpa using h r hr

lemma map_replace_of_no_user (rs : List VoteRow) (u : Nat) (v : Int)
    (h : ∀ x ∈ rs, x.user ≠ u) :
    rs.map (fun x => if x.user == u then { x with voteType := v } else x) = rs := by
  induction rs with
  | nil => rfl
  | cons r rs ih =>
    have hr := h r (by simp)
    rw [List.map_cons, if_neg (by simp [hr]), ih (fun x hx => h x (List.mem_cons_of_mem _ hx))]

/-- With unique user keys, deleting a user's row subtracts exactly that
row's vote type from the ledger sum. -/
lemma voteSum_filter_of_findVote (rows : List VoteRow) (u : Nat) (w : Int)
    (hn : (rows.map (·.user)).Nodup)
    (hf : findVote rows u = some w) :
    voteSum (rows.filter (fun r => !(r.user == u))) = voteSum rows - w := by
  induction rows with
  | nil => simp [findVote] at hf
  | cons r rs ih =>
    rcases List.nodup_cons.mp hn with ⟨hru, hrs⟩
    by_cases hu : r.user = u
    · have hf' : w = r.voteType := by
        simp [findVote, hu] at hf
        omega
      have hnone : ∀ x ∈ rs, x.user ≠ u := by
        intro x hx hxu
        exact hru (by simpa [hxu, hu] using List.mem_map_of_mem (·.user) hx)
      rw [List.filter_cons, if_neg (by simp [hu]), filter_of_no_user rs u hnone,
        voteSum_cons, hf']
      ring
    · have hf' : findVote rs u = some w := by
        simpa [findVote, hu] using hf
      rw [List.filter_cons, if_pos (by simp [hu]), voteSum_cons, voteSum_cons, ih hrs hf']
      ring

/-- With unique user keys, replacing a user's vote type changes the ledger
sum by the difference of the new and old vote types. -/
lemma voteSum_map_replace (rows : List VoteRow) (u : Nat) (v w : Int)
    (hn : (rows.map (·.user)).Nodup)
    (hf : findVote rows u = some w) :
    voteSum (rows.map (fun r => if r.user == u then { r with voteType := v } else r)) =
      voteSum rows + (v - w) := by
  induction rows with
  | nil => simp [findVote] at hf
  | cons r rs ih =>
    rcases List.nodup_cons.mp hn with ⟨hru, hrs⟩
    by_cases hu : r.user = u
    · have hf' : w = r.voteType := by
        simp [findVote, hu] at hf
        omega
      have hnone : ∀ x ∈ rs, x.user ≠ u := by
        intro x hx hxu
        exact hru (by simpa [hxu, hu] using List.mem_map_of_mem (·.user) hx)
      rw [List.map_cons, if_pos (by simp [hu]), map_replace_of_no_user rs u v hnone,
        voteSum_cons, voteSum_cons]
      show v + voteSum rs = r.voteType + voteSum rs + (v - w)
      rw [hf']
      ring
    · have hf' : findVote rs u = some w := by
        simpa [findVote, hu] using hf
      rw [List.map_cons, if_neg (by simp [hu]), voteSum_cons, voteSum_cons, ih hrs hf']
      ring

/-- One `castVote` step preserves the ledger invariant. -/
lemma castVote_inv (s : LedgerState) (u : Nat) (v : Int)
    (h : LedgerInv s) : LedgerInv (castVote s u v) := by
  obtain ⟨hc, hn⟩ := h
  unfold castVote
  cases hf : findVote s.rows u with
  | none =>
    refine ⟨?_, ?_⟩
    · show s.count + v = voteSum (⟨u, v⟩ :: s.rows)
      rw [voteSum_cons, hc]
      show voteSum s.rows + v = v + voteSum s.rows
      ring
    · have := (findVote_eq_none_iff s.rows u).mp hf
      refine List.nodup_cons.mpr ⟨?_, hn⟩
      intro hmem
      rcases List.mem_map.mp hmem with ⟨r, hr, hru⟩
      exact this r hr hru
  | some w =>
    by_cases hwv : w = v
    · simp only [if_pos hwv]
      refine ⟨?_, ?_⟩
      · rw [voteSum_filter_of_findVote s.rows u w hn hf, hc, hwv]
      · exact hn.sublist (List.Sublist.map _ (List.filter_sublist _))
    · simp only [if_neg hwv]
      refine ⟨?_, ?_⟩
      · rw [voteSum_map_replace s.rows u v w hn hf, hc]
      · have : (s.rows.map (fun r => if r.user == u then { r with voteType := v } else r)).map
            (·.user) = s.rows.map (·.user) := by
          rw [List.map_map]
          apply List.map_congr_left
          intro r _
          by_cases hru : r.user = u <;> simp [hru]
        rw [this]
        exact hn

lemma foldl_castVote_inv (ops : List (Nat × Int)) (s : LedgerState)
    (h : LedgerInv s) :
    LedgerInv (ops.foldl (fun s op => castVote s op.1 op.2) s) := by
  induction ops generalizing s with
  | nil => exact h
  | cons op ops ih => exact ih _ (castVote_inv _ _ _ h)

lemma runCasts_inv (ops : List (Nat × Int)) : LedgerInv (runCasts ops) :=
  foldl_castVote_inv ops ⟨[], 0⟩ (by constructor <;> simp [voteSum])

lemma castVote_insert (s : LedgerState) (u : Nat) (v : Int)
    (hf : findVote s.rows u = none) :
    castVote s u v = ⟨⟨u, v⟩ :: s.rows, s.count + v⟩ := by
  unfold castVote
  simp only [hf]

lemma castVote_delete (s : LedgerState) (u : Nat) (v : Int)
    (hf : findVote s.rows u = some v) :
    castVote s u v = ⟨s.rows.filter (fun r => !(r.user == u)), s.count - v⟩ := by
  unfold castVote
  simp [hf]

/-- After the upsert branch replaces the acting user's row, that user's
current vote is the new vote type. -/
lemma findVote_map_replace (rows : List VoteRow) (u : Nat) (v w : Int)
    (hf : findVote rows u = some w) :
    findVote (rows.map (fun r => if r.user == u then { r with voteType := v } else r)) u
      = some v := by
  induction rows with
  | nil => simp [findVote] at hf
  | cons r rs ih =>
    by_cases hu : r.user = u
    · rw [List.map_cons, if_pos (by simp [hu])]
      simp [findVote, hu]
    · rw [List.map_cons, if_neg (by simp [hu])]
      have hf' : findVote rs u = some w := by
        simpa [findVote, hu] using hf
      have := ih hf'
      simpa [findVote, hu] using this

/-- Outcomes of `VoteButtons.handleVote`. -/
inductive VoteOutcome where
  | ok
  | authRequired
  | remoteFailure
deriving Repr, DecidableEq

/-- The control flow of `VoteButtons.handleVote` around `castVote`: the auth
check precedes any remote call; an error from the remote delete/upsert is
thrown before any local cache update is applied.  `remoteOk` is whether the
remote mutation succeeds.  Returns the outcome, the resulting state, and
whether a remote mutation was issued. -/
def handleVote (user : Option Nat) (remoteOk : Bool) (s : LedgerState) (v : Int) :
    VoteOutcome × LedgerState × Bool :=
  match user with
  | none => (.authRequired, s, false)
  | some u =>
    if remoteOk then (.ok, castVote s u v, true) else (.remoteFailure, s, true)

/-- The column a vote row written by `handleVote` targets. -/
inductive TargetCol where
  | questionCol (id : Nat)
  | answerCol (id : Nat)
deriving Repr, DecidableEq

/-- Target selection of `handleVote`, from the `voteData` spread
`...(questionId ? { question_id: questionId } : { answer_id: answerId })`
and the delete filter `.eq(questionId ? 'question_id' : 'answer_id',
questionId || answerId)`.  A component prop that is not passed is `none`. -/
def voteTargetCol (questionId answerId : Option Nat) : Option TargetCol :=
  match questionId with
  | some q => some (.questionCol q)
  | none => answerId.map .answerCol

/-- Outcomes of `QuestionDetail.handleSubmitAnswer`. -/
inductive SubmitOutcome where
  | posted
  | authRequired
  | validationFailed
  | remoteFailure
deriving Repr, DecidableEq

/-- JavaScript `String.prototype.trim`: strip leading and trailing
whitespace.  Strings are modelled as their character lists. -/
def jsTrim (s : List Char) : List Char :=
  ((s.dropWhile Char.isWhitespace).reverse.dropWhile Char.isWhitespace).reverse

/-- `QuestionDetail.handleSubmitAnswer` control flow: the auth check, then
the `!newAnswer.trim()` emptiness check, then the remote insert.  Returns
the outcome and whether a remote call was issued. -/
def handleSubmitAnswer (user : Option Nat) (newAnswer : List Char) (remoteOk : Bool) :
    SubmitOutcome × Bool :=
  match user with
  | none => (.authRequired, false)
  | some _ =>
    if jsTrim newAnswer = [] then (.validationFailed, false)
    else if remoteOk then (.posted, true) else (.remoteFailure, true)

/-- Outcomes of `AskQuestion.handleSubmit`. -/
inductive AskOutcome where
  | posted
  | authRequired
  | missingInfo
  | tagsRequired
  | remoteFailure
deriving Repr, DecidableEq

/-- `AskQuestion.handleSubmit` control flow: the auth check, then the
`!title.trim() || !content.trim()` check, then the `selectedTags.length === 0`
check, then the remote insert.  Returns the outcome and whether a remote
call was issued. -/
def handleSubmit (user : Option Nat) (title content : List Char) (tags : List Nat)
    (remoteOk : Bool) : AskOutcome × Bool :=
  match user with
  | none => (.authRequired, false)
  | some _ =>
    if jsTrim title = [] ∨ jsTrim content = [] then (.missingInfo, false)
    else if tags.length = 0 then (.tagsRequired, false)
    else if remoteOk then (.posted, true) else (.remoteFailure, true)

/-- A question row as seen by the acceptance coordinator. -/
structure QuestionRow where
  id : Nat
  authorId : Nat
  acceptedAnswerId : Option Nat
deriving Repr, DecidableEq

/-- An answer row as seen by the acceptance coordinator. -/
structure AnswerRow where
  id : Nat
  questionId : Nat
  isAccepted : Bool
deriving Repr, DecidableEq

/-- The store state the acceptance coordinator operates on. -/
structure AcceptState where
  questions : List QuestionRow
  answers : List AnswerRow
deriving Repr, DecidableEq

/-- Modelled from the spec: the successful-case mutation of the server-side
`accept_answer` remote procedure — set `Question.acceptedAnswerId` and
`Answer.isAccepted = true`. -/
def acceptApply (s : AcceptState) (qId aId : Nat) : AcceptState :=
  { questions := s.questions.map (fun q2 =>
      if q2.id == qId then { q2 with acceptedAnswerId := some aId } else q2),
    answers := s.answers.map (fun a =>
      if a.id == aId then { a with isAccepted := true } else a) }

/-- Modelled from the spec: the server-side `accept_answer` remote procedure
(its SQL body is not part of the sources; only its declaration in the
database types and its caller `VoteButtons.handleAccept` are).  Per §4.2 of
the spec: preconditions, checked atomically, are that the requester equals
`Question.authorId`, that `Question.acceptedAnswerId` is currently null,
and that the answer belongs to the question; on success it sets
`Question.acceptedAnswerId` and `Answer.isAccepted` and returns `true`; on
any precondition failure it performs no mutation and returns `false`. -/
def accept_answer (s : AcceptState) (requesterId qId aId : Nat) :
    Bool × AcceptState :=
  match s.questions.find? (fun q => q.id == qId) with
  | none => (false, s)
  | some q =>
    if requesterId = q.authorId ∧ q.acceptedAnswerId = none ∧
        s.answers.any (fun a => a.id == aId && a.questionId == qId) then
      (true, acceptApply s qId aId)
    else (false, s)

lemma accept_answer_success (s : AcceptState) (req qId aId : Nat) (q : QuestionRow)
    (hq : s.questions.find? (fun x => x.id == qId) = some q)
    (hcond : req = q.authorId ∧ q.acceptedAnswerId = none ∧
      (s.answers.any fun a => a.id == aId && a.questionId == qId) = true) :
    accept_answer s req qId aId = (true, acceptApply s qId aId) := by
  unfold accept_answer
  simp only [hq]
  rw [if_pos hcond]

lemma accept_answer_fail (s : AcceptState) (req qId aId : Nat) (q : QuestionRow)
    (hq : s.questions.find? (fun x => x.id == qId) = some q)
    (hcond : ¬(req = q.authorId ∧ q.acceptedAnswerId = none ∧
      (s.answers.any fun a => a.id == aId && a.questionId == qId) = true)) :
    accept_answer s req qId aId = (false, s) := by
  unfold accept_answer
  simp only [hq]
  rw [if_neg hcond]

lemma find?_map_acceptUpd (l : List QuestionRow) (qId aId : Nat) :
    (l.map (fun q2 =>
        if q2.id == qId then { q2 with acceptedAnswerId := some aId } else q2)).find?
      (fun q => q.id == qId)
      = (l.find? (fun q => q.id == qId)).map (fun q2 =>
          if q2.id == qId then { q2 with acceptedAnswerId := some aId } else q2) := by
  induction l with
  | nil => rfl
  | cons q l ih =>
    by_cases hq : q.id = qId
    · rw [List.map_cons, if_pos (by simp [hq])]
      simp [List.find?_cons, hq]
    · have h1 : (q.id == qId) = false := by simp [hq]
      rw [List.map_cons, if_neg (by simp [hq])]
      simp only [List.find?_cons, h1]
      exact ih

/-- An answer row as seen by `QuestionDetail.fetchAnswers`' ordering
directives. -/
structure AnswerCard where
  id : Nat
  vote_count : Int
  is_accepted : Bool
  created_at : Nat
deriving Repr, DecidableEq

/-- The ordering requested by `QuestionDetail.fetchAnswers`:
`.order(is_accepted, desc) .order(vote_count, desc) .order(created_at, asc)`,
read lexicographically as the datastore applies it. -/
def answerLe (a b : AnswerCard) : Bool :=
  if a.is_accepted ≠ b.is_accepted then a.is_accepted
  else if a.vote_count ≠ b.vote_count then decide (b.vote_count < a.vote_count)
  else decide (a.created_at ≤ b.created_at)

/-- `answerLe` as a decidable relation. -/
def answerLeR (a b : AnswerCard) : Prop := answerLe a b = true

instance : DecidableRel answerLeR := fun a b =>
  inferInstanceAs (Decidable (answerLe a b = true))

/-- The answer list as returned by `fetchAnswers`: the stored rows sorted by
the requested ordering. -/
def fetchAnswersOrdered (rows : List AnswerCard) : List AnswerCard :=
  List.insertionSort answerLeR rows

/-- The spec's description of the order: accepted answers first, then by
vote count descending, then by creation time ascending. -/
def specAnswerOrder (a b : AnswerCard) : Prop :=
  (a.is_accepted ∧ ¬b.is_accepted) ∨
    (a.is_accepted = b.is_accepted ∧ b.vote_count < a.vote_count) ∨
    (a.is_accepted = b.is_accepted ∧ a.vote_count = b.vote_count ∧
      a.created_at ≤ b.created_at)

lemma answerLe_iff (a b : AnswerCard) : answerLe a b = true ↔ specAnswerOrder a b := by
  unfold answerLe specAnswerOrder
  by_cases h1 : a.is_accepted = b.is_accepted
  · by_cases h2 : a.vote_count = b.vote_count
    · simp [h1, h2]
    · simp [h1, h2]
  · cases ha : a.is_accepted <;> cases hb : b.is_accepted <;>
      simp_all

lemma answerLe_trans (a b c : AnswerCard)
    (hab : answerLe a b) (hbc : answerLe b c) : answerLe a c := by
  rw [answerLe_iff] at *
  unfold specAnswerOrder at *
  rcases hab with h | h | h <;> rcases hbc with g | g | g <;>
    simp_all <;> omega

lemma answerLe_total (a b : AnswerCard) : answerLe a b || answerLe b a := by
  rw [Bool.or_eq_true, answerLe_iff, answerLe_iff]
  unfold specAnswerOrder
  by_cases h1 : a.is_accepted = b.is_accepted
  · by_cases h2 : a.vote_count = b.vote_count
    · rcases Nat.le_total a.created_at b.created_at with h | h
      · exact Or.inl (Or.inr (Or.inr ⟨h1, h2, h⟩))
      · exact Or.inr (Or.inr (Or.inr ⟨h1.symm, h2.symm, h⟩))
    · rcases lt_or_gt_of_ne h2 with h | h
      · exact Or.inr (Or.inr (Or.inl ⟨h1.symm, h⟩))
      · exact Or.inl (Or.inr (Or.inl ⟨h1, h⟩))
  · cases ha : a.is_accepted <;> cases hb : b.is_accepted <;> simp_all

instance : IsTrans AnswerCard answerLeR :=
  ⟨fun a b c hab hbc => answerLe_trans a b c hab hbc⟩

instance : IsTotal AnswerCard answerLeR :=
  ⟨fun a b => by
    rcases Bool.or_eq_true _ _ |>.mp (answerLe_total a b) with h | h
    · exact Or.inl h
    · exact Or.inr h⟩

/-- C1: for every sequence of `castVote` calls (each a user id with a vote
type in `{+1, -1}`) on a single target, the cached vote aggregate after the
sequence equals the sum of `vote_type` over all currently-live vote rows
for that target. -/
theorem cached_count_eq_vote_sum (ops : List (Nat × Int))
    (h : ∀ op ∈ ops, op.2 = 1 ∨ op.2 = -1) :
    (runCasts ops).count = voteSum (runCasts ops).rows :=
  (runCasts_inv ops).1

theorem cached_count_eq_vote_sum_witness :
    (∀ op ∈ [((0 : Nat), (1 : Int)), (1, 1), (0, -1), (0, -1)], op.2 = 1 ∨ op.2 = -1) ∧
    (runCasts [(0, 1), (1, 1), (0, -1), (0, -1)]).count
      = voteSum (runCasts [(0, 1), (1, 1), (0, -1), (0, -1)]).rows :=
  ⟨by decide, cached_count_eq_vote_sum [(0, 1), (1, 1), (0, -1), (0, -1)] (by decide)⟩

/-- C3: for a user whose existing vote on the target has the opposite vote
type, `castVote` with the new type replaces the existing row (the user's
recorded vote becomes the new type, the number of rows is unchanged) and
changes the aggregate by `newType - oldType`, which is exactly `±2`; the
spec's worked trace (0, then +1 by A giving 1, +1 by B giving 2, A switches
to -1 giving 0, A casts -1 again giving 1) is reproduced. -/
theorem castVote_switch (s : LedgerState) (u : Nat) (v w : Int)
    (hf : findVote s.rows u = some w)
    (hop : (v = 1 ∧ w = -1) ∨ (v = -1 ∧ w = 1)) :
    ((castVote s u v).count = s.count + (v - w) ∧
      (v - w = 2 ∨ v - w = -2) ∧
      findVote (castVote s u v).rows u = some v ∧
      (castVote s u v).rows.length = s.rows.length) ∧
    ((runCasts [(0, 1)]).count = 1 ∧
      (runCasts [(0, 1), (1, 1)]).count = 2 ∧
      (runCasts [(0, 1), (1, 1), (0, -1)]).count = 0 ∧
      (runCasts [(0, 1), (1, 1), (0, -1), (0, -1)]).count = 1) := by
  have hwv : ¬(w = v) := by rcases hop with ⟨hv, hw⟩ | ⟨hv, hw⟩ <;> omega
  refine ⟨⟨?_, ?_, ?_, ?_⟩, by decide⟩
  · simp [castVote, hf, hwv]
  · rcases hop with ⟨hv, hw⟩ | ⟨hv, hw⟩ <;> omega
  · simp only [castVote, hf, if_neg hwv]
    exact findVote_map_replace s.rows u v w hf
  · simp [castVote, hf, hwv]

theorem castVote_switch_witness :
    (findVote (⟨[⟨0, -1⟩], -1⟩ : LedgerState).rows 0 = some (-1) ∧
      (((1 : Int) = 1 ∧ (-1 : Int) = -1) ∨ ((1 : Int) = -1 ∧ (-1 : Int) = 1))) ∧
    (((castVote ⟨[⟨0, -1⟩], -1⟩ 0 1).count
        = (⟨[⟨0, -1⟩], -1⟩ : LedgerState).count + (1 - (-1)) ∧
      ((1 : Int) - (-1) = 2 ∨ (1 : Int) - (-1) = -2) ∧
      findVote (castVote ⟨[⟨0, -1⟩], -1⟩ 0 1).rows 0 = some 1 ∧
      (castVote ⟨[⟨0, -1⟩], -1⟩ 0 1).rows.length
        = (⟨[⟨0, -1⟩], -1⟩ : LedgerState).rows.length) ∧
    ((runCasts [(0, 1)]).count = 1 ∧
      (runCasts [(0, 1), (1, 1)]).count = 2 ∧
      (runCasts [(0, 1), (1, 1), (0, -1)]).count = 0 ∧
      (runCasts [(0, 1), (1, 1), (0, -1), (0, -1)]).count = 1)) :=
  ⟨⟨by decide, Or.inl ⟨rfl, rfl⟩⟩,
    castVote_switch ⟨[⟨0, -1⟩], -1⟩ 0 1 (-1) (by decide) (Or.inl ⟨rfl, rfl⟩)⟩

/-- C4 does not hold as stated: from the reachable state after user 0 casts
+1 (one live +1 row, aggregate 1, satisfying the invariant), casting the
same vote type twice more in succession leaves a live vote row for that
user (the first cast toggles the row off, the second re-inserts it), so
"leaving no live vote row for that user" fails. -/
theorem same_vote_twice_cex :
    (runCasts [(0, 1)]).count = voteSum (runCasts [(0, 1)]).rows ∧
    (runCasts [(0, 1), (0, 1), (0, 1)]).count = (runCasts [(0, 1)]).count ∧
    findVote (runCasts [(0, 1), (0, 1), (0, 1)]).rows 0 ≠ none := by decide

/-- C4 (amended): for every user with no live vote on the target, casting
the same vote type twice in succession returns the aggregate to its value
before the first cast and leaves the vote rows unchanged — in particular no
live vote row for that user remains. -/
theorem same_vote_twice_round_trip (s : LedgerState) (u : Nat) (v : Int)
    (h : findVote s.rows u = none) :
    (castVote (castVote s u v) u v).count = s.count ∧
    (castVote (castVote s u v) u v).rows = s.rows ∧
    findVote (castVote (castVote s u v) u v).rows u = none := by
  have hall : ∀ r ∈ s.rows, r.user ≠ u := (findVote_eq_none_iff s.rows u).mp h
  have h1 : castVote s u v = ⟨⟨u, v⟩ :: s.rows, s.count + v⟩ :=
    castVote_insert s u v h
  have hfv : findVote (⟨u, v⟩ :: s.rows) u = some v := by
    simp [findVote]
  have h2 : castVote (⟨⟨u, v⟩ :: s.rows, s.count + v⟩ : LedgerState) u v
      = ⟨s.rows, s.count⟩ := by
    rw [castVote_delete ⟨⟨u, v⟩ :: s.rows, s.count + v⟩ u v hfv]
    rw [LedgerState.mk.injEq]
    constructor
    · show (⟨u, v⟩ :: s.rows).filter (fun r => !(r.user == u)) = s.rows
      rw [List.filter_cons, if_neg (by simp), filter_of_no_user s.rows u hall]
    · show s.count + v - v = s.count
      ring
  rw [h1, h2]
  exact ⟨rfl, rfl, h⟩

theorem same_vote_twice_round_trip_witness :
    findVote (⟨[], 0⟩ : LedgerState).rows 0 = none ∧
    ((castVote (castVote ⟨[], 0⟩ 0 1) 0 1).count = (⟨[], 0⟩ : LedgerState).count ∧
      (castVote (castVote ⟨[], 0⟩ 0 1) 0 1).rows = (⟨[], 0⟩ : LedgerState).rows ∧
      findVote (castVote (castVote ⟨[], 0⟩ 0 1) 0 1).rows 0 = none) :=
  ⟨rfl, same_vote_twice_round_trip ⟨[], 0⟩ 0 1 rfl⟩

/-- C5: evaluating the target selection at the failing configuration.
`QuestionDetail` renders the vote buttons of every answer with both
`questionId` and `answerId` set; the row `handleVote` then writes references
the enclosing question's id, not the answer's id. -/
theorem answer_vote_targets_question :
    voteTargetCol (some 1) (some 2) = some (TargetCol.questionCol 1) ∧
    voteTargetCol (some 1) (some 2) ≠ some (TargetCol.answerCol 2) := by decide

/-- C6: `accept_answer` called by a requester who is not the question's
author returns false and leaves the state unchanged, regardless of whether
the other preconditions hold. -/
theorem accept_by_non_author_fails (s : AcceptState) (requesterId qId aId : Nat)
    (q : QuestionRow)
    (hq : s.questions.find? (fun x => x.id == qId) = some q)
    (hne : requesterId ≠ q.authorId) :
    accept_answer s requesterId qId aId = (false, s) :=
  accept_answer_fail s requesterId qId aId q hq (fun hc => hne hc.1)

theorem accept_by_non_author_fails_witness :
    (⟨[⟨10, 1, none⟩], [⟨20, 10, false⟩]⟩ : AcceptState).questions.find?
        (fun x => x.id == 10) = some ⟨10, 1, none⟩ ∧
    (2 : Nat) ≠ (⟨10, 1, none⟩ : QuestionRow).authorId ∧
    accept_answer ⟨[⟨10, 1, none⟩], [⟨20, 10, false⟩]⟩ 2 10 20
      = (false, ⟨[⟨10, 1, none⟩], [⟨20, 10, false⟩]⟩) :=
  ⟨by decide, by decide,
    accept_by_non_author_fails ⟨[⟨10, 1, none⟩], [⟨20, 10, false⟩]⟩ 2 10 20
      ⟨10, 1, none⟩ (by decide) (by decide)⟩

/-- C2: under the acceptance preconditions (requester is the question's
author, no answer is yet accepted, the answer belongs to the question), the
first `accept_answer` call succeeds; a second call for the same question
with a different answer id returns false and leaves all state unchanged.
Precondition failure is reported as the boolean false, not an exception. -/
theorem accept_twice (s : AcceptState) (req qId a1 a2 : Nat) (q : QuestionRow)
    (hq : s.questions.find? (fun x => x.id == qId) = some q)
    (hauth : req = q.authorId)
    (hnone : q.acceptedAnswerId = none)
    (hbel : s.answers.any (fun a => a.id == a1 && a.questionId == qId) = true)
    (hne : a2 ≠ a1) :
    (accept_answer s req qId a1).1 = true ∧
    accept_answer (accept_answer s req qId a1).2 req qId a2
      = (false, (accept_answer s req qId a1).2) := by
  have hqid : (q.id == qId) = true := by
    have := List.find?_some hq
    simpa using this
  have h1 : accept_answer s req qId a1 = (true, acceptApply s qId a1) :=
    accept_answer_success s req qId a1 q hq ⟨hauth, hnone, hbel⟩
  have hfind2 : (acceptApply s qId a1).questions.find? (fun x => x.id == qId)
      = some { q with acceptedAnswerId := some a1 } := by
    show (s.questions.map (fun q2 =>
        if q2.id == qId then { q2 with acceptedAnswerId := some a1 } else q2)).find?
      (fun x => x.id == qId) = some { q with acceptedAnswerId := some a1 }
    rw [find?_map_acceptUpd, hq]
    show some (if q.id == qId then { q with acceptedAnswerId := some a1 } else q)
      = some { q with acceptedAnswerId := some a1 }
    rw [if_pos hqid]
  have h2 : accept_answer (acceptApply s qId a1) req qId a2
      = (false, acceptApply s qId a1) := by
    refine accept_answer_fail (acceptApply s qId a1) req qId a2
      { q with acceptedAnswerId := some a1 } hfind2 ?_
    rintro ⟨-, hacc, -⟩
    exact Option.noConfusion hacc
  refine ⟨by rw [h1], ?_⟩
  rw [h1, h2]

theorem accept_twice_witness :
    ((⟨[⟨10, 1, none⟩], [⟨20, 10, false⟩, ⟨21, 10, false⟩]⟩ : AcceptState).questions.find?
        (fun x => x.id == 10) = some ⟨10, 1, none⟩ ∧
      (1 : Nat) = (⟨10, 1, none⟩ : QuestionRow).authorId ∧
      (⟨10, 1, none⟩ : QuestionRow).acceptedAnswerId = none ∧
      (⟨[⟨10, 1, none⟩], [⟨20, 10, false⟩, ⟨21, 10, false⟩]⟩ : AcceptState).answers.any
        (fun a => a.id == 20 && a.questionId == 10) = true ∧
      (21 : Nat) ≠ 20) ∧
    ((accept_answer ⟨[⟨10, 1, none⟩], [⟨20, 10, false⟩, ⟨21, 10, false⟩]⟩ 1 10 20).1 = true ∧
      accept_answer
          (accept_answer ⟨[⟨10, 1, none⟩], [⟨20, 10, false⟩, ⟨21, 10, false⟩]⟩ 1 10 20).2
          1 10 21
        = (false,
            (accept_answer ⟨[⟨10, 1, none⟩], [⟨20, 10, false⟩, ⟨21, 10, false⟩]⟩ 1 10 20).2)) :=
  ⟨⟨by decide, by decide, by decide, by decide, by decide⟩,
    accept_twice ⟨[⟨10, 1, none⟩], [⟨20, 10, false⟩, ⟨21, 10, false⟩]⟩ 1 10 20 21
      ⟨10, 1, none⟩ (by decide) (by decide) (by decide) (by decide) (by decide)⟩

/-- C7: the answer list returned for a question is ordered with accepted
answers first, then by vote count descending, then by creation time
ascending; on answers with vote counts [3, 3, 5] and mixed acceptance flags
this ordering is produced. -/
theorem answers_ordered (rows : List AnswerCard) :
    (fetchAnswersOrdered rows).Sorted specAnswerOrder ∧
    fetchAnswersOrdered
        [⟨1, 3, false, 10⟩, ⟨2, 3, true, 20⟩, ⟨3, 5, false, 30⟩]
      = [⟨2, 3, true, 20⟩, ⟨3, 5, false, 30⟩, ⟨1, 3, false, 10⟩] := by
  constructor
  · have h := List.sorted_insertionSort answerLeR rows
    exact h.imp (fun hab => (answerLe_iff _ _).mp hab)
  · decide

/-- C8: with no authenticated session, the vote mutation and the answer
post are rejected with the auth-required outcome before any remote mutation
is issued (the issued flag is false) and no state changes. -/
theorem unauthenticated_rejected (remoteOk : Bool) (s : LedgerState) (v : Int)
    (newAnswer : List Char) :
    handleVote none remoteOk s v = (.authRequired, s, false) ∧
    handleSubmitAnswer none newAnswer remoteOk = (.authRequired, false) :=
  ⟨rfl, rfl⟩

/-- C9: invalid submissions — a question whose trimmed title or trimmed
content is empty or with zero selected tags, or an answer whose trimmed
content is empty — fail validation locally and issue no remote call. -/
theorem invalid_submission_rejected (u : Nat) (remoteOk : Bool)
    (title content answerContent : List Char) (tags : List Nat)
    (hq : jsTrim title = [] ∨ jsTrim content = [] ∨ tags = [])
    (ha : jsTrim answerContent = []) :
    ((handleSubmit (some u) title content tags remoteOk).1 = .missingInfo ∨
      (handleSubmit (some u) title content tags remoteOk).1 = .tagsRequired) ∧
    (handleSubmit (some u) title content tags remoteOk).2 = false ∧
    handleSubmitAnswer (some u) answerContent remoteOk = (.validationFailed, false) := by
  have ha' : handleSubmitAnswer (some u) answerContent remoteOk
      = (.validationFailed, false) := by
    simp [handleSubmitAnswer, ha]
  by_cases h1 : jsTrim title = [] ∨ jsTrim content = []
  · exact ⟨Or.inl (by simp [handleSubmit, h1]), by simp [handleSubmit, h1], ha'⟩
  · have ht : tags = [] := by tauto
    exact ⟨Or.inr (by simp [handleSubmit, h1, ht]), by simp [handleSubmit, h1, ht], ha'⟩

theorem invalid_submission_rejected_witness :
    ((jsTrim [' '] = [] ∨ jsTrim ['c'] = [] ∨ ([] : List Nat) = []) ∧
      jsTrim [] = []) ∧
    (((handleSubmit (some 0) [' '] ['c'] [] true).1 = .missingInfo ∨
        (handleSubmit (some 0) [' '] ['c'] [] true).1 = .tagsRequired) ∧
      (handleSubmit (some 0) [' '] ['c'] [] true).2 = false ∧
      handleSubmitAnswer (some 0) [] true = (.validationFailed, false)) :=
  ⟨⟨Or.inl (by decide), by decide⟩,
    invalid_submission_rejected 0 true [' '] ['c'] [] [] (Or.inl (by decide)) (by decide)⟩

/-- C10: when the remote vote mutation (delete or upsert) fails,
`handleVote` reports the failure and leaves the ledger state — the cached
vote count and the user's recorded current vote — unchanged: no optimistic
update is applied before the remote call succeeds. -/
theorem remote_failure_no_update (u : Nat) (s : LedgerState) (v : Int) :
    handleVote (some u) false s v = (.remoteFailure, s, true) :=
  rfl

end StackIt
